import Mathlib

/-
Verification development for the whitelist reconciliation script
(src/whitelist.py).  The reconciliation engine is the function sync
(lines 172-290); the definitions below are a shallow embedding of it.

Modelling conventions:
- A Google-Sheet-backed collection is a list of optional rows
  (type Sheet).  GoogleSheet.delete (lines 116-124) clears the cells of
  one row; on the next fetch that row maps to an empty dict and
  fromGoogleSheet (lines 43-56) skips it, so positions of all other rows
  are stable.  We model delete as List.set _ none.  GoogleSheet.append
  (lines 105-114) adds the given tuples as fresh rows at the end.
- User (lines 58-69) has three optional fields; rows fetched from the
  remote sheets carry all three (the script raises on rows with missing
  cells, which are therefore outside the model), local ban entries carry
  username and uuid only.  UUIDs are modelled as canonical strings.
- UserList (lines 17-56) stores (row index, user) pairs, where the index
  is the row position recorded by fromGoogleSheet; UserList.search
  (lines 30-41) returns the first pair whose selected field equals the
  value, or nothing.
- The pending-requests sheet (columns email, username) is modelled as a
  list of Req; the engine only reads it (there is no append or delete
  call on the requests sheet anywhere in sync), which the model makes
  explicit by returning it unchanged.
- The Mojang identity resolver (requests.get on line 262) is a function
  from a username to an HTTP status code plus the resolved id, passed as
  a parameter.
- The log output modelled is the data-dependent message of the admission
  loop (line 271); the fixed banner messages carry no information about
  the collections.
- The inner while-loop of the ban propagation pass (lines 233-245)
  deletes one whitelist row per iteration, so the number of populated
  rows strictly decreases; the loop is embedded with a fuel parameter
  that is always called with fuel = number of populated rows, which is
  enough for the cut-off branch to be unreachable.
-/

namespace WhitelistSync

/-- User record (whitelist.py lines 58-69): three optional fields.
toTuple returns exactly these three fields in order, so a staged tuple
is represented by the User value itself. -/
structure User where
  email : Option String := none
  username : Option String := none
  uuid : Option String := none
deriving DecidableEq, Repr

/-- A remote sheet: ordered rows, a cleared/empty row is none. -/
abbrev Sheet := List (Option User)

/-- UserList.fromGoogleSheet (lines 43-56): enumerate the fetched rows,
skipping empty ones, keeping each surviving user's row position. -/
def fromSheetAux : Nat → Sheet → List (Nat × User)
  | _, [] => []
  | i, none :: rest => fromSheetAux (i + 1) rest
  | i, some u :: rest => (i, u) :: fromSheetAux (i + 1) rest

def fromSheet (s : Sheet) : List (Nat × User) := fromSheetAux 0 s

/-- The populated rows of a sheet, in order (used to state properties;
equals the users of fromSheet without their indices). -/
def recs (s : Sheet) : List User := s.filterMap id

/-- Number of populated rows of a sheet. -/
def countSome (s : Sheet) : Nat := (recs s).length

/-- UserList.search (lines 30-41): first (index, user) pair whose
selected field equals the value, as an Option instead of (-1, None). -/
def searchBy (f : User → Option String) (v : Option String)
    (l : List (Nat × User)) : Option (Nat × User) :=
  l.find? fun p => decide (f p.2 = v)

/-- One entry of the local banned-players.json file (lines 197-200):
an object with a name and a uuid, no email. -/
structure Ban where
  name : String
  uuid : String
deriving DecidableEq, Repr

/-- Lines 198-200: the local ban list as User values (email missing). -/
def localBanUsers (bans : List Ban) : List User :=
  bans.map fun b => { username := some b.name, uuid := some b.uuid }

/-- Identity backfill (lines 216-219): for each local ban, look up a
whitelist record with the same username and copy its email in. -/
def backfill (wl : List (Nat × User)) (bans : List User) : List User :=
  bans.map fun ban =>
    match searchBy User.username ban.username wl with
    | some p => { ban with email := p.2.email }
    | none => ban

/-- The while-loop of lines 233-245: repeatedly search the re-fetched
whitelist for a row with the reference email; delete it and stage its
tuple for the remote ban list; stop when no row matches.  fuel bounds
the number of iterations; every call site passes countSome wl, which is
an upper bound on the possible deletions, so the fuel-0 cut-off returns
the same state the loop would. -/
def banAlts : Nat → Sheet → Option String → List User → Sheet × List User
  | 0, wl, _, adds => (wl, adds)
  | fuel + 1, wl, e, adds =>
    match searchBy User.email e (fromSheet wl) with
    | some p => banAlts fuel (wl.set p.1 none) e (adds ++ [p.2])
    | none => (wl, adds)

/-- Body of the propagation loop (lines 226-245) for one local ban:
skip it if the remote ban list (as fetched at the start of the run)
already has its uuid; otherwise find a whitelist row with that uuid and,
if present, ban every row sharing that row's email. -/
def propagateBan (bl0 : List (Nat × User)) (st : Sheet × List User)
    (ban : User) : Sheet × List User :=
  if (searchBy User.uuid ban.uuid bl0).isSome then st
  else
    match searchBy User.uuid ban.uuid (fromSheet st.1) with
    | none => st
    | some p => banAlts (countSome st.1) st.1 p.2.email st.2

/-- One pending whitelist request (forms sheet row, columns B-C). -/
structure Req where
  email : String
  username : String
deriving DecidableEq, Repr

/-- Response of the Mojang profile lookup (line 262): HTTP status code
and, for status 200, the resolved uuid. -/
structure Resp where
  status_code : Nat
  id : String
deriving DecidableEq, Repr

/-- The record staged for the remote whitelist on a 200 response
(lines 268-269). -/
def mkAdd (res : String → Resp) (r : Req) : User :=
  { email := some r.email, username := some r.username
    uuid := some (res r.username).id }

/-- The admission guard of line 260: not on the refreshed remote ban
list and not on the remote whitelist, both matched by username. -/
def passes (bl wl : List (Nat × User)) (r : Req) : Bool :=
  (searchBy User.username (some r.username) bl).isNone &&
    (searchBy User.username (some r.username) wl).isNone

/-- The message logged on a server error of the resolver (line 271). -/
def mojangError : String := "❗❗  Mojang API error"

/-- Body of the request admission loop (lines 259-271) for one request:
skip if banned or already whitelisted; otherwise resolve the username;
stage an addition on 200, log on a status of 500 or more, silently skip
anything else. -/
def admitStep (bl wl : List (Nat × User)) (res : String → Resp)
    (st : List User × List String) (r : Req) : List User × List String :=
  if passes bl wl r then
    if (res r.username).status_code = 200 then (st.1 ++ [mkAdd res r], st.2)
    else if 500 ≤ (res r.username).status_code then
      (st.1, st.2 ++ [mojangError])
    else st
  else st

/-- The four collections read at the start of a run. -/
structure SyncInput where
  localBans : List Ban
  banlistSheet : Sheet
  whitelistSheet : Sheet
  requests : List Req
deriving DecidableEq, Repr

/-- State after a run: the two mutated remote sheets, the (untouched)
request queue, the local whitelist snapshot written at the end
(uuid and name of each remaining whitelist row, lines 283-288), and the
data-dependent log messages. -/
structure SyncOutput where
  banlistSheet : Sheet
  whitelistSheet : Sheet
  requests : List Req
  snapshot : List (Option String × Option String)
  logs : List String
deriving DecidableEq, Repr

/-- Lines 212-219: the local ban list after the identity backfill. -/
def bansOf (inp : SyncInput) : List User :=
  backfill (fromSheet inp.whitelistSheet) (localBanUsers inp.localBans)

/-- Lines 225-245: the ban propagation pass.  Its state is the current
whitelist sheet plus the staged banlist_additions.  remote_banlist is
the one fetched at the top of the run; the in-memory remote_whitelist
always equals the current sheet because it is re-fetched after every
delete (line 243). -/
def propSt (inp : SyncInput) : Sheet × List User :=
  (bansOf inp).foldl (propagateBan (fromSheet inp.banlistSheet))
    (inp.whitelistSheet, [])

def wlAfterProp (inp : SyncInput) : Sheet := (propSt inp).1

def banAdds (inp : SyncInput) : List User := (propSt inp).2

/-- The guarded batch append of lines 247-248 and 273-274. -/
def appendRows (rows : Sheet) (adds : List User) : Sheet :=
  if 0 < adds.length then rows ++ adds.map some else rows

/-- Line 248 and 253: the remote ban list after the batch append. -/
def blFin (inp : SyncInput) : Sheet := appendRows inp.banlistSheet (banAdds inp)

/-- Lines 258-271: the admission loop over the pending requests, run
against the re-fetched remote ban list and the post-propagation remote
whitelist; yields the staged whitelist_additions and the log messages. -/
def admSt (res : String → Resp) (inp : SyncInput) : List User × List String :=
  inp.requests.foldl
    (admitStep (fromSheet (blFin inp)) (fromSheet (wlAfterProp inp)) res)
    ([], [])

def wlAdds (res : String → Resp) (inp : SyncInput) : List User :=
  (admSt res inp).1

/-- Lines 273-279: the remote whitelist after the admission append. -/
def wlFin (res : String → Resp) (inp : SyncInput) : Sheet :=
  appendRows (wlAfterProp inp) (wlAdds res inp)

/-- Lines 283-288: the local whitelist snapshot assembled from the
re-fetched remote whitelist, (uuid, name) per row, fully replacing the
old file (which is opened for writing and never read). -/
def snapshotOf (res : String → Resp) (inp : SyncInput) :
    List (Option String × Option String) :=
  (fromSheet (wlFin res inp)).map fun p => (p.2.uuid, p.2.username)

/-- The reconciliation engine sync (lines 172-290). -/
def sync (res : String → Resp) (inp : SyncInput) : SyncOutput :=
  { banlistSheet := blFin inp
    whitelistSheet := wlFin res inp
    requests := inp.requests
    snapshot := snapshotOf res inp
    logs := (admSt res inp).2 }

/-- The same engine with the identity-backfill loop (lines 216-219)
removed: the propagation pass folds over the raw local ban users.
Used to settle the claim that the backfill affects no output. -/
def syncNoBackfill (res : String → Resp) (inp : SyncInput) : SyncOutput :=
  let p := (localBanUsers inp.localBans).foldl
    (propagateBan (fromSheet inp.banlistSheet)) (inp.whitelistSheet, [])
  let bl1 := appendRows inp.banlistSheet p.2
  let a := inp.requests.foldl
    (admitStep (fromSheet bl1) (fromSheet p.1) res) ([], [])
  let wl2 := appendRows p.1 a.1
  { banlistSheet := bl1
    whitelistSheet := wl2
    requests := inp.requests
    snapshot := (fromSheet wl2).map fun q => (q.2.uuid, q.2.username)
    logs := a.2 }

/-- A resolver that knows no account. -/
def resNone : String → Resp := fun _ => { status_code := 404, id := "" }

/-- A resolver that resolves Bob to 22 and nothing else. -/
def resBob : String → Resp := fun h =>
  if h = "Bob" then { status_code := 200, id := "22" } else { status_code := 404, id := "" }

/-- A resolver whose backend is down for every lookup. -/
def resDown : String → Resp := fun _ => { status_code := 500, id := "" }

/-- A local ban whose uuid is on neither remote sheet. -/
def cexC1Inp : SyncInput :=
  { localBans := [⟨"Alice", "11"⟩], banlistSheet := [], whitelistSheet := []
    requests := [] }

/-- A local ban whose uuid is on the remote whitelist. -/
def amdC1Inp : SyncInput :=
  { localBans := [⟨"Alice", "11"⟩], banlistSheet := []
    whitelistSheet := [some ⟨some "a@x.com", some "Alice", some "11"⟩]
    requests := [] }

/-- An initial state where the same uuid already sits on both remote
sheets and nothing else happens. -/
def cexC2Inp : SyncInput :=
  { localBans := [], banlistSheet := [some ⟨some "e", some "h", some "U"⟩]
    whitelistSheet := [some ⟨some "e2", some "h2", some "U"⟩]
    requests := [] }

/-- Disjoint remote sheets with one pending request. -/
def amdC2Inp : SyncInput :=
  { localBans := [], banlistSheet := [some ⟨some "e", some "h", some "U"⟩]
    whitelistSheet := [some ⟨some "e2", some "h2", some "V"⟩]
    requests := [⟨"e3", "h3"⟩] }

/-- The alt-account scenario of the spec: one local ban, two whitelist
rows sharing the banned account's email, empty remote ban list. -/
def scenC3Inp : SyncInput :=
  { localBans := [⟨"Alice", "11"⟩], banlistSheet := []
    whitelistSheet := [some ⟨some "a@x.com", some "Alice", some "11"⟩,
                       some ⟨some "a@x.com", some "Alice2", some "12"⟩]
    requests := [] }

/-- A local ban for Bob together with a pending request for Bob, with
Bob on neither remote sheet: the first run admits Bob, the second run
then propagates the ban. -/
def cexC5Inp : SyncInput :=
  { localBans := [⟨"Bob", "22"⟩], banlistSheet := [], whitelistSheet := []
    requests := [⟨"b@x.com", "Bob"⟩] }

/-- The state the second run starts from: the remote sheets as the
first run left them, every external input unchanged. -/
def cexC5Inp2 : SyncInput :=
  { localBans := [⟨"Bob", "22"⟩]
    banlistSheet := (sync resBob cexC5Inp).banlistSheet
    whitelistSheet := (sync resBob cexC5Inp).whitelistSheet
    requests := [⟨"b@x.com", "Bob"⟩] }

/-- A state whose first run already converged. -/
def amdC5Inp : SyncInput :=
  { localBans := [], banlistSheet := [], whitelistSheet := [], requests := [] }

/-- Two pending requests sharing the handle Bob against empty sheets. -/
def cexC6Inp : SyncInput :=
  { localBans := [], banlistSheet := [], whitelistSheet := []
    requests := [⟨"e1", "Bob"⟩, ⟨"e2", "Bob"⟩] }

/-- Distinct-handle requests against a duplicate-free whitelist. -/
def amdC6Inp : SyncInput :=
  { localBans := [], banlistSheet := []
    whitelistSheet := [some ⟨some "a", some "Al", some "1"⟩]
    requests := [⟨"e", "Bob"⟩] }

/-- One pending request hitting a resolver server error. -/
def amdC7Inp : SyncInput :=
  { localBans := [], banlistSheet := [], whitelistSheet := []
    requests := [⟨"e", "Bob"⟩] }

open List

theorem recs_nil : recs ([] : Sheet) = [] := rfl

theorem recs_cons_none (rest : Sheet) : recs (none :: rest) = recs rest := rfl

theorem recs_cons_some (u : User) (rest : Sheet) :
    recs (some u :: rest) = u :: recs rest := rfl

theorem map_snd_fromSheetAux :
    ∀ (rows : Sheet) (k : Nat), (fromSheetAux k rows).map Prod.snd = recs rows := by
  intro rows
  induction rows with
  | nil => intro k; rfl
  | cons o rest ih =>
    intro k
    cases o with
    | none => simpa [fromSheetAux, recs_cons_none] using ih (k + 1)
    | some u => simp [fromSheetAux, recs_cons_some, ih (k + 1)]

theorem mem_recs_of_mem_fromSheet {rows : Sheet} {p : Nat × User}
    (h : p ∈ fromSheet rows) : p.2 ∈ recs rows := by
  rw [← map_snd_fromSheetAux rows 0]
  exact List.mem_map_of_mem Prod.snd h

theorem searchBy_none_iff {f : User → Option String} {v : Option String}
    {l : List (Nat × User)} : searchBy f v l = none ↔ ∀ p ∈ l, ¬ f p.2 = v := by
  simp [searchBy, List.find?_eq_none]

theorem searchBy_some {f : User → Option String} {v : Option String}
    {l : List (Nat × User)} {q : Nat × User} (h : searchBy f v l = some q) :
    q ∈ l ∧ f q.2 = v := by
  refine ⟨List.mem_of_find?_eq_some h, ?_⟩
  have hp := List.find?_some h
  simpa using hp

/-- What a successful first-match search over a fetched sheet means:
the populated rows split as C ++ found :: D where nothing in C matches,
and clearing the found row leaves exactly C ++ D. -/
theorem search_fromSheetAux_some (f : User → Option String) (v : Option String) :
    ∀ (rows : Sheet) (k i : Nat) (u : User),
      searchBy f v (fromSheetAux k rows) = some (i, u) →
      ∃ C D, recs rows = C ++ u :: D ∧ f u = v ∧ (∀ x ∈ C, ¬ f x = v) ∧
        ∃ j, i = k + j ∧ recs (rows.set j none) = C ++ D := by
  intro rows
  induction rows with
  | nil => intro k i u h; simp [fromSheetAux, searchBy] at h
  | cons o rest ih =>
    intro k i u h
    cases o with
    | none =>
      have h1 : searchBy f v (fromSheetAux (k + 1) rest) = some (i, u) := h
      obtain ⟨C, D, hCD, hfu, hC, j, hj, hset⟩ := ih (k + 1) i u h1
      refine ⟨C, D, by simpa [recs_cons_none] using hCD, hfu, hC, j + 1, by omega, ?_⟩
      simpa [List.set, recs_cons_none] using hset
    | some w =>
      have hrw : fromSheetAux k (some w :: rest) = (k, w) :: fromSheetAux (k + 1) rest := rfl
      rw [hrw] at h
      by_cases hw : f w = v
      · have h2 : some (k, w) = some (i, u) := by
          simpa [searchBy, List.find?_cons, hw] using h
        obtain ⟨hk, hu⟩ : k = i ∧ w = u := by
          constructor <;> [exact congrArg (fun q => (q.getD (0, w)).1) h2;
            exact congrArg (fun q => (q.getD (0, w)).2) h2]
        subst hk; subst hu
        exact ⟨[], recs rest, by simp [recs_cons_some], hw, by simp, 0, by omega,
          by simp [List.set, recs_cons_none]⟩
      · have h2 : searchBy f v (fromSheetAux (k + 1) rest) = some (i, u) := by
          simpa [searchBy, List.find?_cons, hw] using h
        obtain ⟨C, D, hCD, hfu, hC, j, hj, hset⟩ := ih (k + 1) i u h2
        refine ⟨w :: C, D, by simp [recs_cons_some, hCD], hfu, ?_, j + 1, by omega, ?_⟩
        · intro x hx
          rcases List.mem_cons.mp hx with hx | hx
          · subst hx; exact hw
          · exact hC x hx
        · simpa [List.set, recs_cons_some] using congrArg (w :: ·) hset

theorem search_fromSheet_some {f : User → Option String} {v : Option String}
    {rows : Sheet} {i : Nat} {u : User}
    (h : searchBy f v (fromSheet rows) = some (i, u)) :
    ∃ C D, recs rows = C ++ u :: D ∧ f u = v ∧ (∀ x ∈ C, ¬ f x = v) ∧
      recs (rows.set i none) = C ++ D := by
  obtain ⟨C, D, hCD, hfu, hC, j, hj, hset⟩ := search_fromSheetAux_some f v rows 0 i u h
  exact ⟨C, D, hCD, hfu, hC, by rwa [show i = j by omega]⟩

theorem search_fromSheet_none {f : User → Option String} {v : Option String}
    {rows : Sheet} (h : searchBy f v (fromSheet rows) = none) :
    ∀ u ∈ recs rows, ¬ f u = v := by
  intro u hu
  rw [← map_snd_fromSheetAux rows 0] at hu
  obtain ⟨p, hp, hpu⟩ := List.mem_map.mp hu
  simpa [hpu] using searchBy_none_iff.mp h p hp

theorem search_fromSheet_none_of {f : User → Option String} {v : Option String}
    {rows : Sheet} (h : ∀ u ∈ recs rows, ¬ f u = v) :
    searchBy f v (fromSheet rows) = none := by
  cases hs : searchBy f v (fromSheet rows) with
  | none => rfl
  | some q =>
    obtain ⟨hq, hfq⟩ := searchBy_some hs
    exact absurd hfq (h q.2 (mem_recs_of_mem_fromSheet hq))

theorem search_fromSheet_isSome {f : User → Option String} {v : Option String}
    {rows : Sheet} {u : User} (hu : u ∈ recs rows) (hf : f u = v) :
    (searchBy f v (fromSheet rows)).isSome = true := by
  cases hs : searchBy f v (fromSheet rows) with
  | none => exact absurd hf (search_fromSheet_none hs u hu)
  | some q => rfl

theorem filterMap_id_map_some (adds : List User) :
    (adds.map some).filterMap (id : Option User → Option User) = adds := by
  induction adds with
  | nil => rfl
  | cons a rest ih => simp [ih]

theorem recs_append_map_some (rows : Sheet) (adds : List User) :
    recs (rows ++ adds.map some) = recs rows ++ adds := by
  simp [recs, List.filterMap_append, filterMap_id_map_some]

theorem appendRows_nil (rows : Sheet) : appendRows rows [] = rows := rfl

theorem recs_appendRows (rows : Sheet) (adds : List User) :
    recs (appendRows rows adds) = recs rows ++ adds := by
  unfold appendRows
  by_cases h : 0 < adds.length
  · simp [h, recs_append_map_some]
  · have : adds = [] := List.length_eq_zero.mp (by omega)
    simp [this]

/-- Full behaviour of the alt-banning while-loop: given sufficient fuel
it returns some final sheet plus newly staged users δ such that the
populated rows split into the survivors and δ (a permutation accounts
for every deletion), and no surviving row carries the reference email. -/
theorem banAlts_main (e : Option String) :
    ∀ (fuel : Nat) (wl : Sheet) (adds : List User), countSome wl ≤ fuel →
      ∃ wl2 δ, banAlts fuel wl e adds = (wl2, adds ++ δ) ∧
        recs wl2 ++ δ ~ recs wl ∧ ∀ u ∈ recs wl2, ¬ u.email = e := by
  intro fuel
  induction fuel with
  | zero =>
    intro wl adds h
    have hnil : recs wl = [] := List.length_eq_zero.mp (Nat.le_zero.mp h)
    exact ⟨wl, [], by simp [banAlts], by simp [hnil], by simp [hnil]⟩
  | succ fuel ih =>
    intro wl adds h
    cases hs : searchBy User.email e (fromSheet wl) with
    | none =>
      exact ⟨wl, [], by simp [banAlts, hs], by simp,
        fun u hu => search_fromSheet_none hs u hu⟩
    | some q =>
      obtain ⟨i, u⟩ := q
      obtain ⟨C, D, hCD, _, _, hset⟩ := search_fromSheet_some hs
      have hlen : countSome wl = C.length + D.length + 1 := by
        simp [countSome, hCD]; omega
      have hlen2 : countSome (wl.set i none) ≤ fuel := by
        simp [countSome, hset]; omega
      obtain ⟨wl2, δ, hb, hperm, hne⟩ := ih (wl.set i none) (adds ++ [u]) hlen2
      refine ⟨wl2, u :: δ, ?_, ?_, hne⟩
      · simp [banAlts, hs, hb]
      · calc recs wl2 ++ u :: δ ~ u :: (recs wl2 ++ δ) := List.perm_middle
          _ ~ u :: (C ++ D) := by
            rw [← hset]; exact List.Perm.cons u hperm
          _ ~ C ++ u :: D := List.perm_middle.symm
          _ = recs wl := hCD.symm

/-- One step of the propagation pass moves some multiset δ of whitelist
rows into the staged additions and changes nothing else. -/
theorem propagateBan_main (bl0 : List (Nat × User)) (st : Sheet × List User)
    (b : User) :
    ∃ wl2 δ, propagateBan bl0 st b = (wl2, st.2 ++ δ) ∧
      recs wl2 ++ δ ~ recs st.1 := by
  unfold propagateBan
  by_cases h : (searchBy User.uuid b.uuid bl0).isSome = true
  · exact ⟨st.1, [], by simp [h], by simp⟩
  · cases hs : searchBy User.uuid b.uuid (fromSheet st.1) with
    | none => exact ⟨st.1, [], by simp [h, hs], by simp⟩
    | some q =>
      obtain ⟨wl2, δ, hb, hperm, _⟩ :=
        banAlts_main q.2.email (countSome st.1) st.1 st.2 (le_refl _)
      exact ⟨wl2, δ, by simp [h, hs, hb], hperm⟩

/-- The whole propagation fold: staged additions grow by exactly the
multiset of whitelist rows that disappeared. -/
theorem propFold_main (bl0 : List (Nat × User)) :
    ∀ (bans : List User) (wl : Sheet) (adds : List User),
      ∃ WL δ, bans.foldl (propagateBan bl0) (wl, adds) = (WL, adds ++ δ) ∧
        recs WL ++ δ ~ recs wl := by
  intro bans
  induction bans with
  | nil => exact fun wl adds => ⟨wl, [], by simp, by simp⟩
  | cons b rest ih =>
    intro wl adds
    obtain ⟨wl1, δ1, h1, hp1⟩ := propagateBan_main bl0 (wl, adds) b
    obtain ⟨WL, δ2, h2, hp2⟩ := ih wl1 (adds ++ δ1)
    refine ⟨WL, δ1 ++ δ2, ?_, ?_⟩
    · simp [List.foldl_cons, h1, h2, List.append_assoc]
    · calc recs WL ++ (δ1 ++ δ2)
          ~ recs WL ++ (δ2 ++ δ1) := List.Perm.append_left _ List.perm_append_comm
        _ = (recs WL ++ δ2) ++ δ1 := by rw [List.append_assoc]
        _ ~ recs wl1 ++ δ1 := hp2.append_right δ1
        _ ~ recs wl := hp1

/-- Staged additions are never dropped by the rest of the fold. -/
theorem propFold_adds_mem (bl0 : List (Nat × User)) (bans : List User)
    (wl : Sheet) (adds : List User) {x : User} (hx : x ∈ adds) :
    x ∈ (bans.foldl (propagateBan bl0) (wl, adds)).2 := by
  obtain ⟨WL, δ, h, _⟩ := propFold_main bl0 bans wl adds
  rw [h]
  exact List.mem_append_left δ hx

/-- Core of the exhaustiveness analysis: if some processed ban has
uuid t and some record with uuid t sits in the current whitelist or in
the staged additions, then after the fold a record with uuid t is on
the initially fetched remote ban list or among the staged additions. -/
theorem propFold_key (bl0 : List (Nat × User)) (t : Option String) :
    ∀ (bans : List User) (wl : Sheet) (adds : List User),
      (∃ b ∈ bans, b.uuid = t) →
      (∃ y ∈ recs wl ++ adds, y.uuid = t) →
      (∃ x ∈ bl0.map Prod.snd, x.uuid = t) ∨
        (∃ x ∈ (bans.foldl (propagateBan bl0) (wl, adds)).2, x.uuid = t) := by
  intro bans
  induction bans with
  | nil => rintro wl adds ⟨b, hb, -⟩ _; simp at hb
  | cons a rest ih =>
    rintro wl adds ⟨b, hb, hbt⟩ ⟨y, hy, hyt⟩
    obtain ⟨wl1, δ1, h1, hp1⟩ := propagateBan_main bl0 (wl, adds) a
    have hstep : (a :: rest).foldl (propagateBan bl0) (wl, adds) =
        rest.foldl (propagateBan bl0) (wl1, adds ++ δ1) := by
      simp [List.foldl_cons, h1]
    have htrans : y ∈ recs wl1 ++ (adds ++ δ1) := by
      rcases List.mem_append.mp hy with hy1 | hy2
      · have : y ∈ recs wl1 ++ δ1 := hp1.mem_iff.mpr hy1
        rcases List.mem_append.mp this with hz | hz
        · exact List.mem_append_left _ hz
        · exact List.mem_append_right _ (List.mem_append_right _ hz)
      · exact List.mem_append_right _ (List.mem_append_left _ hy2)
    rcases List.mem_cons.mp hb with rfl | hbr
    · -- the ban with uuid t is processed right now
      by_cases hbl : (searchBy User.uuid b.uuid bl0).isSome = true
      · obtain ⟨q, hq⟩ := Option.isSome_iff_exists.mp hbl
        obtain ⟨hqm, hqv⟩ := searchBy_some hq
        exact Or.inl ⟨q.2, List.mem_map_of_mem Prod.snd hqm, by rw [hqv, hbt]⟩
      · cases hs : searchBy User.uuid b.uuid (fromSheet wl) with
        | none =>
          -- nothing with uuid t is left on the whitelist, so y was staged
          have hnwl : ∀ u ∈ recs wl, ¬ u.uuid = b.uuid := search_fromSheet_none hs
          have hya : y ∈ adds := by
            rcases List.mem_append.mp hy with hy1 | hy2
            · exact absurd (hyt.trans hbt.symm) (hnwl y hy1)
            · exact hy2
          have hstate : propagateBan bl0 (wl, adds) b = (wl, adds) := by
            simp [propagateBan, hbl, hs]
          rw [List.foldl_cons, hstate]
          exact Or.inr ⟨y, propFold_adds_mem bl0 rest wl adds hya, hyt⟩
        | some q =>
          -- the reference row itself ends up among the staged additions
          obtain ⟨hqm, hqv⟩ := searchBy_some hs
          obtain ⟨wl2, δ, hba, hperm, hne⟩ :=
            banAlts_main q.2.email (countSome wl) wl adds (le_refl _)
          have hstate : propagateBan bl0 (wl, adds) b = (wl2, adds ++ δ) := by
            simp [propagateBan, hbl, hs, hba]
          have hqrec : q.2 ∈ recs wl := mem_recs_of_mem_fromSheet hqm
          have hq2 : q.2 ∈ recs wl2 ++ δ := hperm.mem_iff.mpr hqrec
          have hqδ : q.2 ∈ δ := by
            rcases List.mem_append.mp hq2 with hz | hz
            · exact absurd rfl (hne q.2 hz)
            · exact hz
          rw [List.foldl_cons, hstate]
          exact Or.inr ⟨q.2,
            propFold_adds_mem bl0 rest wl2 (adds ++ δ)
              (List.mem_append_right adds hqδ),
            by rw [hqv, hbt]⟩
    · rw [hstep]
      exact ih wl1 (adds ++ δ1) ⟨b, hbr, hbt⟩ ⟨y, htrans, hyt⟩

/-- If every processed ban is either already on the initially fetched
remote ban list or has no whitelist row with its uuid, the propagation
pass does not touch its state at all. -/
theorem propFold_id (bl0 : List (Nat × User)) :
    ∀ (bans : List User) (wl : Sheet) (adds : List User),
      (∀ b ∈ bans, (searchBy User.uuid b.uuid bl0).isSome = true ∨
        searchBy User.uuid b.uuid (fromSheet wl) = none) →
      bans.foldl (propagateBan bl0) (wl, adds) = (wl, adds) := by
  intro bans
  induction bans with
  | nil => intro wl adds _; rfl
  | cons a rest ih =>
    intro wl adds h
    have hstate : propagateBan bl0 (wl, adds) a = (wl, adds) := by
      rcases h a (List.mem_cons_self a rest) with ha | ha
      · simp [propagateBan, ha]
      · by_cases hbl : (searchBy User.uuid a.uuid bl0).isSome = true
        · simp [propagateBan, hbl]
        · simp [propagateBan, hbl, ha]
    rw [List.foldl_cons, hstate]
    exact ih wl adds fun b hb => h b (List.mem_cons_of_mem a hb)

theorem passes_iff (bl wl : List (Nat × User)) (r : Req) :
    passes bl wl r = true ↔
      searchBy User.username (some r.username) bl = none ∧
        searchBy User.username (some r.username) wl = none := by
  simp [passes, Option.isNone_iff_eq_none]

/-- Full behaviour of the admission fold: it appends some list δ of
staged users and some list of log lines; every staged user comes from a
request that passed both duplicate checks and resolved with status 200,
and the staged usernames appear in request order without repetition of
origin. -/
theorem adm_main (bl wl : List (Nat × User)) (res : String → Resp) :
    ∀ (reqs : List Req) (acc : List User) (logs : List String),
      ∃ δ δl, reqs.foldl (admitStep bl wl res) (acc, logs) = (acc ++ δ, logs ++ δl) ∧
        (∀ x ∈ δ, ∃ r ∈ reqs, passes bl wl r = true ∧
          (res r.username).status_code = 200 ∧ x = mkAdd res r) ∧
        δ.map User.username <+ reqs.map fun r => some r.username := by
  intro reqs
  induction reqs with
  | nil => exact fun acc logs => ⟨[], [], by simp, by simp, by simp⟩
  | cons r rest ih =>
    intro acc logs
    by_cases hp : passes bl wl r = true
    · by_cases h200 : (res r.username).status_code = 200
      · obtain ⟨δ, δl, hf, hall, hsub⟩ := ih (acc ++ [mkAdd res r]) logs
        refine ⟨mkAdd res r :: δ, δl, ?_, ?_, ?_⟩
        · rw [List.foldl_cons, show admitStep bl wl res (acc, logs) r =
            (acc ++ [mkAdd res r], logs) by simp [admitStep, hp, h200], hf]
          simp
        · intro x hx
          rcases List.mem_cons.mp hx with rfl | hx2
          · exact ⟨r, List.mem_cons_self r rest, hp, h200, rfl⟩
          · obtain ⟨r2, hr2, h1, h2, h3⟩ := hall x hx2
            exact ⟨r2, List.mem_cons_of_mem r hr2, h1, h2, h3⟩
        · simpa [mkAdd] using hsub.cons₂ (some r.username)
      · by_cases h500 : 500 ≤ (res r.username).status_code
        · obtain ⟨δ, δl, hf, hall, hsub⟩ := ih acc (logs ++ [mojangError])
          refine ⟨δ, mojangError :: δl, ?_, ?_, hsub.cons _⟩
          · rw [List.foldl_cons, show admitStep bl wl res (acc, logs) r =
              (acc, logs ++ [mojangError]) by simp [admitStep, hp, h200, h500], hf]
            simp
          · intro x hx
            obtain ⟨r2, hr2, h1, h2, h3⟩ := hall x hx
            exact ⟨r2, List.mem_cons_of_mem r hr2, h1, h2, h3⟩
        · obtain ⟨δ, δl, hf, hall, hsub⟩ := ih acc logs
          refine ⟨δ, δl, ?_, ?_, hsub.cons _⟩
          · rw [List.foldl_cons, show admitStep bl wl res (acc, logs) r =
              (acc, logs) by simp [admitStep, hp, h200, h500], hf]
          · intro x hx
            obtain ⟨r2, hr2, h1, h2, h3⟩ := hall x hx
            exact ⟨r2, List.mem_cons_of_mem r hr2, h1, h2, h3⟩
    · obtain ⟨δ, δl, hf, hall, hsub⟩ := ih acc logs
      refine ⟨δ, δl, ?_, ?_, hsub.cons _⟩
      · rw [List.foldl_cons, show admitStep bl wl res (acc, logs) r =
          (acc, logs) by simp [admitStep, hp], hf]
      · intro x hx
        obtain ⟨r2, hr2, h1, h2, h3⟩ := hall x hx
        exact ⟨r2, List.mem_cons_of_mem r hr2, h1, h2, h3⟩

/-- A request that passes both checks and resolves with 200 really is
staged. -/
theorem adm_mem (bl wl : List (Nat × User)) (res : String → Resp) :
    ∀ (reqs : List Req) (acc : List User) (logs : List String) (r : Req),
      r ∈ reqs → passes bl wl r = true → (res r.username).status_code = 200 →
      mkAdd res r ∈ (reqs.foldl (admitStep bl wl res) (acc, logs)).1 := by
  intro reqs
  induction reqs with
  | nil => intro _ _ r h; simp at h
  | cons a rest ih =>
    intro acc logs r hr hp h200
    rcases List.mem_cons.mp hr with rfl | hr2
    · rw [List.foldl_cons, show admitStep bl wl res (acc, logs) r =
        (acc ++ [mkAdd res r], logs) by simp [admitStep, hp, h200]]
      obtain ⟨δ, δl, hf, -, -⟩ := adm_main bl wl res rest (acc ++ [mkAdd res r]) logs
      rw [hf]
      simp
    · rw [List.foldl_cons]
      cases hst : admitStep bl wl res (acc, logs) a with
      | mk acc2 logs2 => exact ih acc2 logs2 r hr2 hp h200

/-- A request that passes both checks and hits a server error leaves
the API-error message in the log. -/
theorem adm_log (bl wl : List (Nat × User)) (res : String → Resp) :
    ∀ (reqs : List Req) (acc : List User) (logs : List String) (r : Req),
      r ∈ reqs → passes bl wl r = true → 500 ≤ (res r.username).status_code →
      mojangError ∈ (reqs.foldl (admitStep bl wl res) (acc, logs)).2 := by
  intro reqs
  induction reqs with
  | nil => intro _ _ r h; simp at h
  | cons a rest ih =>
    intro acc logs r hr hp h500
    rcases List.mem_cons.mp hr with rfl | hr2
    · have h200 : ¬ (res r.username).status_code = 200 := by omega
      rw [List.foldl_cons, show admitStep bl wl res (acc, logs) r =
        (acc, logs ++ [mojangError]) by simp [admitStep, hp, h200, h500]]
      obtain ⟨δ, δl, hf, -, -⟩ := adm_main bl wl res rest acc (logs ++ [mojangError])
      rw [hf]
      simp
    · rw [List.foldl_cons]
      cases hst : admitStep bl wl res (acc, logs) a with
      | mk acc2 logs2 => exact ih acc2 logs2 r hr2 hp h500

/-- If no request both passes the checks and resolves with 200, nothing
is staged for the whitelist. -/
theorem adm_no200 (bl wl : List (Nat × User)) (res : String → Resp)
    (reqs : List Req) (acc : List User) (logs : List String)
    (h : ∀ r ∈ reqs, passes bl wl r = true → (res r.username).status_code ≠ 200) :
    (reqs.foldl (admitStep bl wl res) (acc, logs)).1 = acc := by
  obtain ⟨δ, δl, hf, hall, -⟩ := adm_main bl wl res reqs acc logs
  have hδ : δ = [] := by
    cases hd : δ with
    | nil => rfl
    | cons x xs =>
      obtain ⟨r, hr, h1, h2, -⟩ := hall x (by simp [hd])
      exact absurd h2 (h r hr h1)
  rw [hf, hδ]
  simp

/-- The backfill only touches the email field. -/
theorem backfill_uuid (wl : List (Nat × User)) (b : User) :
    ((match searchBy User.username b.username wl with
      | some p => { b with email := p.2.email }
      | none => b) : User).uuid = b.uuid := by
  cases searchBy User.username b.username wl <;> rfl

/-- Every local ban appears, uuid intact, in the backfilled list that
the propagation pass folds over. -/
theorem bansOf_of_localBan (inp : SyncInput) (b : Ban) (hb : b ∈ inp.localBans) :
    ∃ b2 ∈ bansOf inp, b2.uuid = some b.uuid := by
  have h1 : ({ username := some b.name, uuid := some b.uuid } : User) ∈
      localBanUsers inp.localBans := List.mem_map_of_mem _ hb
  unfold bansOf backfill
  refine ⟨_, List.mem_map_of_mem _ h1, ?_⟩
  rw [backfill_uuid]

/-- Conversely every user the propagation pass folds over carries the
uuid of some local ban. -/
theorem localBan_of_bansOf (inp : SyncInput) (b2 : User) (h : b2 ∈ bansOf inp) :
    ∃ b ∈ inp.localBans, b2.uuid = some b.uuid := by
  unfold bansOf backfill at h
  obtain ⟨b1, hb1, hbf⟩ := List.mem_map.mp h
  obtain ⟨b, hb, hlb⟩ := List.mem_map.mp hb1
  refine ⟨b, hb, ?_⟩
  rw [← hbf, backfill_uuid, ← hlb]

theorem sync_banlistSheet (res : String → Resp) (inp : SyncInput) :
    (sync res inp).banlistSheet = blFin inp := rfl

theorem sync_whitelistSheet (res : String → Resp) (inp : SyncInput) :
    (sync res inp).whitelistSheet = wlFin res inp := rfl

theorem sync_requests (res : String → Resp) (inp : SyncInput) :
    (sync res inp).requests = inp.requests := rfl

theorem sync_snapshot (res : String → Resp) (inp : SyncInput) :
    (sync res inp).snapshot = snapshotOf res inp := rfl

theorem sync_logs (res : String → Resp) (inp : SyncInput) :
    (sync res inp).logs = (admSt res inp).2 := rfl

/-- Folding over a mapped list is folding over the original when the
step function cannot see the difference. -/
theorem foldl_map_congr {α γ : Type} (g : γ → α → γ) (h : α → α)
    (hg : ∀ s x, g s (h x) = g s x) :
    ∀ (l : List α) (s : γ), (l.map h).foldl g s = l.foldl g s := by
  intro l
  induction l with
  | nil => intro s; rfl
  | cons a rest ih => intro s; simp [List.foldl_cons, hg s a, ih]

/-- The propagation step reads nothing but the ban's uuid. -/
theorem propagateBan_uuid_congr (bl0 : List (Nat × User))
    (st : Sheet × List User) (b c : User) (h : b.uuid = c.uuid) :
    propagateBan bl0 st b = propagateBan bl0 st c := by
  simp [propagateBan, h]

theorem appendRows_eq (rows : Sheet) (adds : List User) :
    appendRows rows adds = rows ++ adds.map some := by
  unfold appendRows
  by_cases h : 0 < adds.length
  · simp [h]
  · have : adds = [] := List.length_eq_zero.mp (by omega)
    simp [this]

/-- C3: with the local ban list holding exactly Alice/11, the remote
whitelist holding exactly the two rows Alice and Alice2 under email
a-at-x.com, and an empty remote ban list, one run leaves exactly the two
rows Alice then Alice2 on the remote ban list and no whitelist row with
that email. -/
theorem c3_alt_account_scenario :
    recs (sync resNone scenC3Inp).banlistSheet =
      [⟨some "a@x.com", some "Alice", some "11"⟩,
       ⟨some "a@x.com", some "Alice2", some "12"⟩] ∧
    (recs (sync resNone scenC3Inp).banlistSheet).length = 2 ∧
    ((recs (sync resNone scenC3Inp).whitelistSheet).filter
      fun u => decide (u.email = some "a@x.com")).length = 0 := by
  decide

/-- C4: the local whitelist snapshot written at the end of every run is
exactly the (identifier, handle) pairs of the re-fetched final remote
whitelist, in the remote order and with matching cardinality; the model
of sync takes no previous local whitelist content as input because the
script opens the file for writing only. -/
theorem c4_snapshot_mirrors_remote (res : String → Resp) (inp : SyncInput) :
    (sync res inp).snapshot =
      (recs (sync res inp).whitelistSheet).map (fun u => (u.uuid, u.username)) ∧
    (sync res inp).snapshot.length = (recs (sync res inp).whitelistSheet).length := by
  have h1 : (sync res inp).snapshot =
      (recs (sync res inp).whitelistSheet).map fun u => (u.uuid, u.username) := by
    rw [sync_snapshot, sync_whitelistSheet]
    unfold snapshotOf
    rw [show ((fromSheet (wlFin res inp)).map fun p => (p.2.uuid, p.2.username)) =
        ((fromSheet (wlFin res inp)).map Prod.snd).map fun u => (u.uuid, u.username) by
      rw [List.map_map]; rfl]
    rw [show (fromSheet (wlFin res inp)).map Prod.snd = recs (wlFin res inp) from
      map_snd_fromSheetAux _ 0]
  exact ⟨h1, by rw [h1, List.length_map]⟩

/-- C8: in every run the rows that vanished from the remote whitelist
during ban propagation are, as a multiset, exactly the tuples staged
for the remote ban list (so the counts agree), and the batch write
appends exactly those tuples to the remote ban list. -/
theorem c8_deletions_equal_appends (res : String → Resp) (inp : SyncInput) :
    recs (wlAfterProp inp) ++ banAdds inp ~ recs inp.whitelistSheet ∧
    (recs (wlAfterProp inp)).length + (banAdds inp).length =
      (recs inp.whitelistSheet).length ∧
    (sync res inp).banlistSheet = inp.banlistSheet ++ (banAdds inp).map some := by
  obtain ⟨WL, δ, hfold, hperm⟩ :=
    propFold_main (fromSheet inp.banlistSheet) (bansOf inp) inp.whitelistSheet []
  have hprop : propSt inp = (WL, δ) := by
    unfold propSt
    rw [hfold]
    simp
  have hwl : wlAfterProp inp = WL := by rw [wlAfterProp, hprop]
  have hba : banAdds inp = δ := by rw [banAdds, hprop]
  refine ⟨?_, ?_, ?_⟩
  · rw [hwl, hba]; exact hperm
  · rw [hwl, hba]
    have := hperm.length_eq
    simpa using this
  · rw [sync_banlistSheet]
    unfold blFin
    rw [appendRows_eq]

/-- C9: the identity backfill of lines 216-219 changes no output of
sync: the propagation loop matches bans by identifier and reads the
email from a fresh whitelist lookup, never from the backfilled field,
so running the engine without the backfill yields the same result. -/
theorem c9_backfill_has_no_effect (res : String → Resp) (inp : SyncInput) :
    sync res inp = syncNoBackfill res inp := by
  have key : propSt inp = (localBanUsers inp.localBans).foldl
      (propagateBan (fromSheet inp.banlistSheet)) (inp.whitelistSheet, []) := by
    unfold propSt bansOf backfill
    exact foldl_map_congr _ _
      (fun s x => propagateBan_uuid_congr _ s _ x (backfill_uuid _ x)) _ _
  simp only [sync, syncNoBackfill, blFin, wlFin, snapshotOf, admSt, wlAdds,
    banAdds, wlAfterProp, key]

/-- C10: once a request has passed the duplicate checks, a resolver
status of exactly 200 stages its record and nothing else, any status
strictly between 200 and 500 leaves the loop state untouched with no
log line, and any status of 500 or more only appends the API-error log
line. -/
theorem c10_resolver_status_cases (bl wl : List (Nat × User))
    (res : String → Resp) (st : List User × List String) (r : Req)
    (hp : passes bl wl r = true) :
    ((res r.username).status_code = 200 →
      admitStep bl wl res st r = (st.1 ++ [mkAdd res r], st.2)) ∧
    (200 < (res r.username).status_code → (res r.username).status_code < 500 →
      admitStep bl wl res st r = st) ∧
    (500 ≤ (res r.username).status_code →
      admitStep bl wl res st r = (st.1, st.2 ++ [mojangError])) := by
  refine ⟨fun h200 => by simp [admitStep, hp, h200], fun hlo hhi => ?_, fun h500 => ?_⟩
  · have h200 : ¬ (res r.username).status_code = 200 := by omega
    have h500 : ¬ 500 ≤ (res r.username).status_code := by omega
    simp [admitStep, hp, h200, h500]
  · have h200 : ¬ (res r.username).status_code = 200 := by omega
    simp [admitStep, hp, h200, h500]

/-- Witness for C10 at a concrete 404 response: the loop state is left
untouched with no log line. -/
theorem c10_resolver_status_cases_witness :
    admitStep [] [] resNone ([], []) ⟨"e", "h"⟩ =
      (([] : List User), ([] : List String)) :=
  (c10_resolver_status_cases [] [] resNone ([], []) ⟨"e", "h"⟩
    (by decide)).2.1 (by decide) (by decide)

/-- C7: the request queue comes out of every run untouched (the engine
has no mutation operation on it), and a request that reaches the
resolver and gets a server error leaves the API-error message in the
log while nothing carrying its handle is staged for the whitelist, so
it stays eligible for the next run. -/
theorem c7_transient_failure_skips_and_logs (res : String → Resp) (inp : SyncInput) :
    (sync res inp).requests = inp.requests ∧
    ∀ r ∈ inp.requests,
      passes (fromSheet (blFin inp)) (fromSheet (wlAfterProp inp)) r = true →
      500 ≤ (res r.username).status_code →
      mojangError ∈ (sync res inp).logs ∧
        ∀ t ∈ wlAdds res inp, t.username ≠ some r.username := by
  refine ⟨rfl, fun r hr hp h500 => ⟨?_, ?_⟩⟩
  · rw [sync_logs]
    exact adm_log _ _ res inp.requests [] [] r hr hp h500
  · intro t ht hteq
    obtain ⟨δ, δl, hf, hall, -⟩ :=
      adm_main (fromSheet (blFin inp)) (fromSheet (wlAfterProp inp)) res
        inp.requests [] []
    have htδ : t ∈ δ := by
      have : t ∈ (inp.requests.foldl
          (admitStep (fromSheet (blFin inp)) (fromSheet (wlAfterProp inp)) res)
          ([], [])).1 := ht
      rw [hf] at this
      simpa using this
    obtain ⟨r2, -, -, h200, rfl⟩ := hall t htδ
    have hru : r2.username = r.username := by simpa [mkAdd] using hteq
    rw [hru] at h200
    omega

/-- Witness for C7: a server-error request against empty sheets leaves
the API-error message in the log. -/
theorem c7_transient_failure_witness :
    mojangError ∈ (sync resDown amdC7Inp).logs :=
  ((c7_transient_failure_skips_and_logs resDown amdC7Inp).2
    ⟨"e", "Bob"⟩ (by decide) (by decide) (by decide)).1

/-- C1 as stated is false: a local ban whose identifier is on neither
remote sheet is never appended to the remote ban list (lines 227-232
skip it), so propagation is not exhaustive over all local bans. -/
theorem c1_counterexample :
    ¬ ∀ b ∈ cexC1Inp.localBans,
      ∃ x ∈ recs (sync resNone cexC1Inp).banlistSheet, x.uuid = some b.uuid := by
  decide

/-- C1 amended: every local ban whose identifier is already on the
initially fetched remote ban list, or appears on the initial remote
whitelist, is on the remote ban list after the run. -/
theorem c1_propagation_covers_traced_bans (res : String → Resp)
    (inp : SyncInput) (b : Ban) (hb : b ∈ inp.localBans)
    (H : (∃ x ∈ recs inp.banlistSheet, x.uuid = some b.uuid) ∨
      ∃ y ∈ recs inp.whitelistSheet, y.uuid = some b.uuid) :
    ∃ x ∈ recs (sync res inp).banlistSheet, x.uuid = some b.uuid := by
  rw [sync_banlistSheet]
  unfold blFin
  rw [appendRows_eq, recs_append_map_some]
  rcases H with ⟨x, hx, hxu⟩ | ⟨y, hy, hyu⟩
  · exact ⟨x, List.mem_append_left _ hx, hxu⟩
  · obtain ⟨b2, hb2, hb2u⟩ := bansOf_of_localBan inp b hb
    have hkey := propFold_key (fromSheet inp.banlistSheet) (some b.uuid)
      (bansOf inp) inp.whitelistSheet [] ⟨b2, hb2, hb2u⟩
      ⟨y, by simpa using hy, hyu⟩
    rcases hkey with ⟨x, hx, hxu⟩ | ⟨x, hx, hxu⟩
    · rw [show (fromSheet inp.banlistSheet).map Prod.snd = recs inp.banlistSheet from
        map_snd_fromSheetAux _ 0] at hx
      exact ⟨x, List.mem_append_left _ hx, hxu⟩
    · have hba : banAdds inp = ((bansOf inp).foldl
          (propagateBan (fromSheet inp.banlistSheet)) (inp.whitelistSheet, [])).2 := rfl
      rw [← hba] at hx
      exact ⟨x, List.mem_append_right _ hx, hxu⟩

/-- Witness for amended C1: the banned uuid sits on the whitelist. -/
theorem c1_propagation_covers_traced_bans_witness :
    ∃ x ∈ recs (sync resNone amdC1Inp).banlistSheet, x.uuid = some "11" :=
  c1_propagation_covers_traced_bans resNone amdC1Inp ⟨"Alice", "11"⟩
    (by decide) (by decide)

/-- C2 as stated is false: sync never reconciles an identifier that
already sits on both remote sheets at the start of the run (no local
ban and no request about it means neither pass touches it). -/
theorem c2_counterexample :
    ¬ ∀ x ∈ recs (sync resNone cexC2Inp).banlistSheet,
      ∀ y ∈ recs (sync resNone cexC2Inp).whitelistSheet, x.uuid ≠ y.uuid := by
  decide

/-- C2 amended: the final remote ban list and remote whitelist share no
identifier provided the initial sheets were already identifier-disjoint,
the initial whitelist carried no duplicate identifier, and no pending
request resolves to an identifier already on either sheet. -/
theorem c2_final_sheets_disjoint (res : String → Resp) (inp : SyncInput)
    (h1 : ∀ x ∈ recs inp.banlistSheet, ∀ y ∈ recs inp.whitelistSheet,
      x.uuid ≠ y.uuid)
    (h2 : ((recs inp.whitelistSheet).map User.uuid).Nodup)
    (h3 : ∀ r ∈ inp.requests,
      ∀ x ∈ recs inp.banlistSheet ++ recs inp.whitelistSheet,
        x.uuid ≠ some ((res r.username).id)) :
    ∀ x ∈ recs (sync res inp).banlistSheet,
      ∀ y ∈ recs (sync res inp).whitelistSheet, x.uuid ≠ y.uuid := by
  obtain ⟨WL, δ, hfold, hperm⟩ :=
    propFold_main (fromSheet inp.banlistSheet) (bansOf inp) inp.whitelistSheet []
  have hprop : propSt inp = (WL, δ) := by
    unfold propSt
    rw [hfold]
    simp
  have hwlA : wlAfterProp inp = WL := by rw [wlAfterProp, hprop]
  have hbA : banAdds inp = δ := by rw [banAdds, hprop]
  have hblrecs : recs (sync res inp).banlistSheet = recs inp.banlistSheet ++ δ := by
    rw [sync_banlistSheet]
    unfold blFin
    rw [appendRows_eq, recs_append_map_some, hbA]
  have hwlrecs : recs (sync res inp).whitelistSheet = recs WL ++ wlAdds res inp := by
    rw [sync_whitelistSheet]
    unfold wlFin
    rw [appendRows_eq, recs_append_map_some, hwlA]
  have hδwl0 : ∀ x ∈ δ, x ∈ recs inp.whitelistSheet :=
    fun x hx => hperm.mem_iff.mp (List.mem_append_right _ hx)
  have hWLwl0 : ∀ y ∈ recs WL, y ∈ recs inp.whitelistSheet :=
    fun y hy => hperm.mem_iff.mp (List.mem_append_left _ hy)
  have hnodup : ((recs WL).map User.uuid ++ δ.map User.uuid).Nodup := by
    have hm := hperm.map User.uuid
    rw [List.map_append] at hm
    exact hm.nodup_iff.mpr h2
  have hdisj := (List.nodup_append.mp hnodup).2.2
  have hadm : ∀ t ∈ wlAdds res inp, ∃ r ∈ inp.requests, t = mkAdd res r := by
    intro t ht
    obtain ⟨δ2, δl, hf, hall, -⟩ :=
      adm_main (fromSheet (blFin inp)) (fromSheet (wlAfterProp inp)) res
        inp.requests [] []
    have htδ : t ∈ δ2 := by
      have hmem : t ∈ (inp.requests.foldl
          (admitStep (fromSheet (blFin inp)) (fromSheet (wlAfterProp inp)) res)
          ([], [])).1 := ht
      rw [hf] at hmem
      simpa using hmem
    obtain ⟨r, hr, -, -, rfl⟩ := hall t htδ
    exact ⟨r, hr, rfl⟩
  intro x hx y hy
  rw [hblrecs] at hx
  rw [hwlrecs] at hy
  rcases List.mem_append.mp hx with hx1 | hx2 <;>
    rcases List.mem_append.mp hy with hy1 | hy2
  · exact h1 x hx1 y (hWLwl0 y hy1)
  · obtain ⟨r, hr, rfl⟩ := hadm y hy2
    intro he
    exact h3 r hr x (List.mem_append_left _ hx1) (by simpa [mkAdd] using he)
  · intro he
    exact hdisj (List.mem_map_of_mem User.uuid hy1)
      (by rw [← he]; exact List.mem_map_of_mem User.uuid hx2)
  · obtain ⟨r, hr, rfl⟩ := hadm y hy2
    intro he
    exact h3 r hr x (List.mem_append_right _ (hδwl0 x hx2))
      (by simpa [mkAdd] using he)

/-- Witness for amended C2: disjoint initial sheets, one request whose
resolution is fresh; the surviving banlist and whitelist rows differ. -/
theorem c2_final_sheets_disjoint_witness :
    (⟨some "e", some "h", some "U"⟩ : User).uuid ≠
      (⟨some "e2", some "h2", some "V"⟩ : User).uuid :=
  c2_final_sheets_disjoint resNone amdC2Inp (by decide) (by decide) (by decide)
    ⟨some "e", some "h", some "U"⟩ (by decide)
    ⟨some "e2", some "h2", some "V"⟩ (by decide)

/-- C6 as stated is false: the duplicate check of line 260 consults the
in-memory whitelist, never the additions staged earlier in the same
loop, so two pending requests sharing a handle are both admitted and
the handle-uniqueness of an (initially duplicate-free) whitelist is not
preserved. -/
theorem c6_counterexample :
    ((recs cexC6Inp.whitelistSheet).map User.username).Nodup ∧
      ¬ ((recs (sync resBob cexC6Inp).whitelistSheet).map User.username).Nodup := by
  decide

/-- C6 amended: requests whose handle is already on the refreshed ban
list or on the whitelist stage nothing, and handle-uniqueness of the
whitelist survives admission provided additionally that no two pending
requests share a handle. -/
theorem c6_no_duplicate_handles (res : String → Resp) (inp : SyncInput)
    (h1 : ((recs inp.whitelistSheet).map User.username).Nodup)
    (h2 : (inp.requests.map Req.username).Nodup) :
    ((recs (sync res inp).whitelistSheet).map User.username).Nodup ∧
    (∀ t ∈ wlAdds res inp, ∀ x ∈ recs (blFin inp), x.username ≠ t.username) ∧
    (∀ t ∈ wlAdds res inp, ∀ y ∈ recs (wlAfterProp inp), y.username ≠ t.username) := by
  obtain ⟨WL, δ, hfold, hperm⟩ :=
    propFold_main (fromSheet inp.banlistSheet) (bansOf inp) inp.whitelistSheet []
  have hprop : propSt inp = (WL, δ) := by
    unfold propSt
    rw [hfold]
    simp
  have hwlA : wlAfterProp inp = WL := by rw [wlAfterProp, hprop]
  obtain ⟨δ2, δl, hf, hall, hsub⟩ :=
    adm_main (fromSheet (blFin inp)) (fromSheet (wlAfterProp inp)) res
      inp.requests [] []
  have hadds : wlAdds res inp = δ2 := by
    have : wlAdds res inp = (inp.requests.foldl
        (admitStep (fromSheet (blFin inp)) (fromSheet (wlAfterProp inp)) res)
        ([], [])).1 := rfl
    rw [this, hf]
    simp
  have hblnone : ∀ t ∈ wlAdds res inp,
      ∀ x ∈ recs (blFin inp), x.username ≠ t.username := by
    intro t ht x hxm
    rw [hadds] at ht
    obtain ⟨r, -, hp, -, rfl⟩ := hall t ht
    obtain ⟨hbl, -⟩ := (passes_iff _ _ r).mp hp
    have := search_fromSheet_none hbl x hxm
    simpa [mkAdd] using this
  have hwlnone : ∀ t ∈ wlAdds res inp,
      ∀ y ∈ recs (wlAfterProp inp), y.username ≠ t.username := by
    intro t ht y hym
    rw [hadds] at ht
    obtain ⟨r, -, hp, -, rfl⟩ := hall t ht
    obtain ⟨-, hwl⟩ := (passes_iff _ _ r).mp hp
    have := search_fromSheet_none hwl y hym
    simpa [mkAdd] using this
  refine ⟨?_, hblnone, hwlnone⟩
  have hwlrecs : recs (sync res inp).whitelistSheet = recs WL ++ wlAdds res inp := by
    rw [sync_whitelistSheet]
    unfold wlFin
    rw [appendRows_eq, recs_append_map_some, hwlA]
  rw [hwlrecs, List.map_append, List.nodup_append]
  refine ⟨?_, ?_, ?_⟩
  · have hm := hperm.map User.username
    rw [List.map_append] at hm
    exact (List.nodup_append.mp (hm.nodup_iff.mpr h1)).1
  · have hn2 : (inp.requests.map fun r => some r.username).Nodup := by
    -- map some over the usernames keeps them distinct
      have := h2.map (Option.some_injective String)
      rwa [List.map_map] at this
    rw [hadds]
    exact hsub.nodup hn2
  · intro a ha hb
    obtain ⟨y, hy, hya⟩ := List.mem_map.mp ha
    obtain ⟨t, ht, hta⟩ := List.mem_map.mp hb
    exact hwlnone t ht y (by rw [hwlA]; exact hy) (hya.trans hta.symm)

/-- Witness for amended C6: one fresh-handle request against a
duplicate-free whitelist keeps the handles duplicate-free. -/
theorem c6_no_duplicate_handles_witness :
    ((recs (sync resBob amdC6Inp).whitelistSheet).map User.username).Nodup :=
  (c6_no_duplicate_handles resBob amdC6Inp (by decide) (by decide)).1

/-- C5 as stated is false: with an unpropagated local ban for Bob and a
pending request for Bob, the first run admits Bob to the whitelist
(the ban had no whitelist row to match), and the second run — with no
external input changed — deletes that row, appends to the remote ban
list and writes a different snapshot. -/
theorem c5_counterexample :
    ¬ ((sync resBob cexC5Inp2).banlistSheet = (sync resBob cexC5Inp).banlistSheet ∧
      (sync resBob cexC5Inp2).whitelistSheet = (sync resBob cexC5Inp).whitelistSheet ∧
      (sync resBob cexC5Inp2).snapshot = (sync resBob cexC5Inp).snapshot) := by
  decide

/-- C5 amended: a second run on the remote state the first run left,
with unchanged local bans, requests and resolver, changes neither
remote sheet and writes the identical snapshot, provided every local
ban whose identifier is missing from the post-run remote ban list is
also absent from the post-run remote whitelist (the situation the first
run can create by admitting a not-yet-propagated banned identity). -/
theorem c5_second_run_noop (res : String → Resp) (inp : SyncInput)
    (H : ∀ b ∈ inp.localBans,
      (∃ x ∈ recs (sync res inp).banlistSheet, x.uuid = some b.uuid) ∨
        ∀ y ∈ recs (sync res inp).whitelistSheet, y.uuid ≠ some b.uuid) :
    (sync res { localBans := inp.localBans
                banlistSheet := (sync res inp).banlistSheet
                whitelistSheet := (sync res inp).whitelistSheet
                requests := inp.requests }).banlistSheet =
      (sync res inp).banlistSheet ∧
    (sync res { localBans := inp.localBans
                banlistSheet := (sync res inp).banlistSheet
                whitelistSheet := (sync res inp).whitelistSheet
                requests := inp.requests }).whitelistSheet =
      (sync res inp).whitelistSheet ∧
    (sync res { localBans := inp.localBans
                banlistSheet := (sync res inp).banlistSheet
                whitelistSheet := (sync res inp).whitelistSheet
                requests := inp.requests }).snapshot =
      (sync res inp).snapshot := by
  set inp2 : SyncInput :=
    { localBans := inp.localBans
      banlistSheet := (sync res inp).banlistSheet
      whitelistSheet := (sync res inp).whitelistSheet
      requests := inp.requests } with hinp2
  have hprop2 : propSt inp2 = (inp2.whitelistSheet, []) := by
    unfold propSt
    apply propFold_id
    intro b2 hb2
    obtain ⟨b, hb, hbu⟩ := localBan_of_bansOf inp2 b2 hb2
    rcases H b hb with ⟨x, hx, hxu⟩ | hy
    · left
      rw [hbu]
      exact search_fromSheet_isSome hx hxu
    · right
      rw [hbu]
      exact search_fromSheet_none_of fun u hu => hy u hu
  have hwlA2 : wlAfterProp inp2 = inp2.whitelistSheet := by
    rw [wlAfterProp, hprop2]
  have hbl2 : blFin inp2 = inp2.banlistSheet := by
    rw [blFin, show banAdds inp2 = [] by rw [banAdds, hprop2], appendRows_nil]
  have hno : ∀ r ∈ inp2.requests,
      passes (fromSheet (blFin inp2)) (fromSheet (wlAfterProp inp2)) r = true →
      (res r.username).status_code ≠ 200 := by
    intro r hr hp h200
    rw [hbl2, hwlA2] at hp
    obtain ⟨hbl, hwl⟩ := (passes_iff _ _ r).mp hp
    by_cases hp1 : passes (fromSheet (blFin inp)) (fromSheet (wlAfterProp inp)) r = true
    · have hmem := adm_mem (fromSheet (blFin inp)) (fromSheet (wlAfterProp inp))
        res inp.requests [] [] r hr hp1 h200
      have hmem2 : mkAdd res r ∈ recs (sync res inp).whitelistSheet := by
        rw [sync_whitelistSheet]
        unfold wlFin
        rw [appendRows_eq, recs_append_map_some]
        exact List.mem_append_right _ hmem
      exact search_fromSheet_none hwl _ hmem2 (by simp [mkAdd])
    · rw [passes_iff] at hp1
      rcases Decidable.not_and_iff_or_not.mp hp1 with hq | hq
      · cases hs : searchBy User.username (some r.username)
            (fromSheet (blFin inp)) with
        | none => exact hq hs
        | some q =>
          obtain ⟨hqm, hqv⟩ := searchBy_some hs
          exact search_fromSheet_none hbl q.2 (mem_recs_of_mem_fromSheet hqm) hqv
      · cases hs : searchBy User.username (some r.username)
            (fromSheet (wlAfterProp inp)) with
        | none => exact hq hs
        | some q =>
          obtain ⟨hqm, hqv⟩ := searchBy_some hs
          have hq2 : q.2 ∈ recs (sync res inp).whitelistSheet := by
            rw [sync_whitelistSheet]
            unfold wlFin
            rw [appendRows_eq, recs_append_map_some]
            exact List.mem_append_left _ (mem_recs_of_mem_fromSheet hqm)
          exact search_fromSheet_none hwl q.2 hq2 hqv
  have hadds2 : wlAdds res inp2 = [] := by
    have : wlAdds res inp2 = (inp2.requests.foldl
        (admitStep (fromSheet (blFin inp2)) (fromSheet (wlAfterProp inp2)) res)
        ([], [])).1 := rfl
    rw [this]
    exact adm_no200 _ _ res inp2.requests [] [] hno
  have hwl2 : wlFin res inp2 = inp2.whitelistSheet := by
    rw [wlFin, hadds2, appendRows_nil, hwlA2]
  refine ⟨?_, ?_, ?_⟩
  · rw [sync_banlistSheet, hbl2]
  · rw [sync_whitelistSheet, hwl2]
  · rw [sync_snapshot]
    unfold snapshotOf
    rw [hwl2]
    rfl

/-- Witness for amended C5: an already converged (empty) state. -/
theorem c5_second_run_noop_witness :
    (sync resNone { localBans := amdC5Inp.localBans
                    banlistSheet := (sync resNone amdC5Inp).banlistSheet
                    whitelistSheet := (sync resNone amdC5Inp).whitelistSheet
                    requests := amdC5Inp.requests }).banlistSheet =
      (sync resNone amdC5Inp).banlistSheet ∧
    (sync resNone { localBans := amdC5Inp.localBans
                    banlistSheet := (sync resNone amdC5Inp).banlistSheet
                    whitelistSheet := (sync resNone amdC5Inp).whitelistSheet
                    requests := amdC5Inp.requests }).whitelistSheet =
      (sync resNone amdC5Inp).whitelistSheet ∧
    (sync resNone { localBans := amdC5Inp.localBans
                    banlistSheet := (sync resNone amdC5Inp).banlistSheet
                    whitelistSheet := (sync resNone amdC5Inp).whitelistSheet
                    requests := amdC5Inp.requests }).snapshot =
      (sync resNone amdC5Inp).snapshot :=
  c5_second_run_noop resNone amdC5Inp (by decide)

end WhitelistSync
